import Mathlib

/-!
Verification of the `muze-pus/dapp-with-react` repository.

The repository consists of:
* `src/contracts/AtaToken.sol` — a Solidity 0.8 ERC20 token (OpenZeppelin
  base) with a one-time claim guard: a `claimants` mapping from address to a
  `uint8` claim status, an `immutable rewardAmount` set in the constructor,
  a `claim()` function guarded by `require(!hasClaimed(msg.sender))`, and a
  `hasClaimed(address)` view.
* `src/src/web3.js` — wallet-provider initialisation (`getWeb3Provider`).
* The workshop document, containing the client-side orchestration code:
  `getBalanceAndClaimed` (concurrent balance / claim-status read) and
  `handleStake` (allowance check, conditional `approve`, then `stake`).

The Solidity contract is embedded shallowly: addresses are `Fin (2 ^ 160)`,
`uint256` arithmetic is `Nat` with explicit overflow checks against
`2 ^ 256` (Solidity 0.8 checked arithmetic reverts on overflow; the one
`unchecked` addition in OpenZeppelin's `_mint` is modelled with an explicit
`% 2 ^ 256`), and reverting executions are `Except.error`.
-/

/-- Number of EVM addresses: addresses are 160-bit words. -/
abbrev NumAddr : Nat := 2 ^ 160

instance : NeZero NumAddr := ⟨by norm_num⟩

/-- An EVM address. -/
abbrev Address : Type := Fin NumAddr

/-- One past the largest `uint256` value: checked arithmetic reverts when a
sum reaches this bound. -/
abbrev Uint256Max : Nat := 2 ^ 256

/-- `decimals()` of the OpenZeppelin ERC20 base contract: 18. -/
def decimals : Nat := 18

/-- `1000000 * 10**decimals()`, minted to the deployer in the constructor. -/
def initialSupply : Nat := 1000000 * 10 ^ decimals

/-- `CLAIM_STATUS_PENDING = 0` (`uint8` constant in `AtaToken.sol`). -/
def CLAIM_STATUS_PENDING : Nat := 0

/-- `CLAIM_STATUS_CLAIMED = 1` (`uint8` constant in `AtaToken.sol`). -/
def CLAIM_STATUS_CLAIMED : Nat := 1

/-- Ways an AtaToken execution can revert. -/
inductive EvmError where
  | alreadyClaimed : EvmError
  | mintToZeroAddress : EvmError
  | overflow : EvmError
deriving DecidableEq

/-- Storage of the deployed `AtaToken` contract: the ERC20 `_balances`,
`_allowances` and `_totalSupply` of the OpenZeppelin base, the
`immutable rewardAmount`, and the `claimants` status mapping (a
`mapping(address => uint8)`, default value `0 = PENDING`). -/
structure ERC20State where
  balances : Address → Nat
  allowances : Address → Address → Nat
  totalSupply : Nat
  rewardAmount : Nat
  claimants : Address → Nat

/-- The all-zero storage a contract starts from before its constructor runs. -/
def emptyState : ERC20State :=
  { balances := fun _ => 0
    allowances := fun _ _ => 0
    totalSupply := 0
    rewardAmount := 0
    claimants := fun _ => 0 }

instance : Inhabited ERC20State := ⟨emptyState⟩

/-- OpenZeppelin `_mint(account, amount)`: reverts on the zero address,
reverts when `_totalSupply += amount` overflows (checked arithmetic), and
performs the `unchecked` balance addition modulo `2 ^ 256`. -/
def mint (s : ERC20State) (account : Address) (amount : Nat) :
    Except EvmError ERC20State :=
  if account = 0 then Except.error EvmError.mintToZeroAddress
  else if Uint256Max ≤ s.totalSupply + amount then Except.error EvmError.overflow
  else Except.ok { s with
    totalSupply := s.totalSupply + amount
    balances := Function.update s.balances account
      ((s.balances account + amount) % Uint256Max) }

/-- `hasClaimed(_account)`: `claimants[_account] == CLAIM_STATUS_CLAIMED`. -/
def hasClaimed (s : ERC20State) (account : Address) : Bool :=
  decide (s.claimants account = CLAIM_STATUS_CLAIMED)

/-- `claim()` called with `msg.sender = sender`:
`require(!hasClaimed(msg.sender), "Already claimed")`, then
`_mint(msg.sender, rewardAmount)`, then
`claimants[msg.sender] = CLAIM_STATUS_CLAIMED`. -/
def claim (s : ERC20State) (sender : Address) : Except EvmError ERC20State :=
  if hasClaimed s sender then Except.error EvmError.alreadyClaimed
  else
    match mint s sender s.rewardAmount with
    | Except.error e => Except.error e
    | Except.ok s1 =>
        Except.ok { s1 with
          claimants := Function.update s1.claimants sender CLAIM_STATUS_CLAIMED }

/-- The constructor, run by `deployer = msg.sender`:
`_mint(msg.sender, 1000000 * 10**decimals())`, then
`rewardAmount = 1000 * 10**decimals()`. -/
def deploy (deployer : Address) : Except EvmError ERC20State :=
  match mint emptyState deployer initialSupply with
  | Except.error e => Except.error e
  | Except.ok s => Except.ok { s with rewardAmount := 1000 * 10 ^ decimals }

/-- The post-constructor storage (meaningful when `deploy` succeeds, i.e.
when the deployer is not the zero address). -/
def deployed (d : Address) : ERC20State :=
  match deploy d with
  | Except.ok s => s
  | Except.error _ => emptyState

/-- The storage produced by a successful `claim` from `s` by `a`. -/
def claimedState (s : ERC20State) (a : Address) : ERC20State :=
  { s with
    totalSupply := s.totalSupply + s.rewardAmount
    balances := Function.update s.balances a
      ((s.balances a + s.rewardAmount) % Uint256Max)
    claimants := Function.update s.claimants a CLAIM_STATUS_CLAIMED }

/-- The EVM-level effect of submitting a `claim` transaction: a reverted
transaction leaves the chain state unchanged. -/
def applyClaimTx (s : ERC20State) (sender : Address) : ERC20State :=
  match claim s sender with
  | Except.ok s' => s'
  | Except.error _ => s

/-- `Reaches s tr s'`: the contract storage evolves from `s` to `s'`
through the successful `claim` transactions whose senders are listed in
`tr`, oldest first. (Reverted transactions leave the state unchanged and
`hasClaimed` is a view, so these are the only state-changing operations the
claim guard is exposed to.) -/
inductive Reaches : ERC20State → List Address → ERC20State → Prop where
  | refl (s : ERC20State) : Reaches s [] s
  | step {s : ERC20State} {tr : List Address} {s' : ERC20State}
      (sender : Address) {s'' : ERC20State}
      (h : Reaches s tr s') (hc : claim s' sender = Except.ok s'') :
      Reaches s (tr ++ [sender]) s''

/-- A contract storage reachable from deployment by `d` through the
successful claims listed in `tr`. -/
def Reachable (d : Address) (tr : List Address) (s : ERC20State) : Prop :=
  ∃ s0, deploy d = Except.ok s0 ∧ Reaches s0 tr s

/-- The set of addresses whose claim status is CLAIMED. -/
def claimedSet (s : ERC20State) : Finset Address :=
  Finset.univ.filter (fun a => hasClaimed s a = true)

/-- Storage invariant maintained by deployment and claims: the reward
amount is the constructor's value, the total supply accounts exactly for
the initial mint plus one reward per claimed address, and no balance
exceeds the total supply. -/
structure StorageInv (s : ERC20State) : Prop where
  reward_eq : s.rewardAmount = 1000 * 10 ^ decimals
  supply_eq : s.totalSupply =
    initialSupply + (1000 * 10 ^ decimals) * (claimedSet s).card
  balances_le : ∀ a, s.balances a ≤ s.totalSupply

/-- Return values of AtaToken's external functions. -/
inductive Ret where
  | unitRet : Ret
  | boolRet : Bool → Ret
deriving DecidableEq

/-- The external messages of the AtaToken ABI that the claims concern. -/
inductive Msg where
  | claimMsg : Msg
  | hasClaimedMsg : Address → Msg

/-- Dispatch of an external call on the deployed contract: `claim()` is a
state-changing transaction, `hasClaimed(address)` is a Solidity `view`
function — it computes its result from the current storage and returns the
storage untouched. -/
def ataCall (s : ERC20State) (sender : Address) (m : Msg) :
    Except EvmError (Ret × ERC20State) :=
  match m with
  | Msg.claimMsg =>
      match claim s sender with
      | Except.error e => Except.error e
      | Except.ok s' => Except.ok (Ret.unitRet, s')
  | Msg.hasClaimedMsg a => Except.ok (Ret.boolRet (hasClaimed s a), s)

/-! ### Client-side code (workshop document and `src/src/web3.js`) -/

/-- `10 ** 18`, the `ether` unit used by `ethers.utils.formatEther`. -/
def weiPerEther : Nat := 10 ^ 18

/-- Left-pad a digit list with `'0'` to 18 digits, as `formatFixed` pads the
fractional part. -/
def padLeft18 (s : List Char) : List Char :=
  List.replicate (18 - s.length) '0' ++ s

/-- Drop trailing `'0'` characters, as `formatFixed` trims the fractional
part. -/
def trimRightZeros (s : List Char) : List Char :=
  (s.reverse.dropWhile (fun c => c = '0')).reverse

/-- `ethers.utils.formatEther` on a non-negative `BigNumber`: integer part,
a dot, and the 18-digit fractional part with trailing zeros trimmed down to
at least one digit. -/
def formatEther (wei : Nat) : String :=
  let whole := toString (wei / weiPerEther)
  let fracDigits := padLeft18 (toString (wei % weiPerEther)).data
  let frac := trimRightZeros fracDigits
  whole ++ "." ++ String.mk (if frac.isEmpty then ['0'] else frac)

/-- `balanceOf(account)` of the ERC20 base contract. -/
def balanceOf (s : ERC20State) (account : Address) : Nat :=
  s.balances account

/-- `Promise.all` over two read-only RPC calls: both are served from the
same chain state. -/
def promiseAll2 {α β : Type} (f : ERC20State → α) (g : ERC20State → β)
    (s : ERC20State) : α × β :=
  (f s, g s)

/-- `getBalanceAndClaimed(account, provider)` from the workshop document:
`Promise.all([ataToken.balanceOf(account), ataToken.hasClaimed(account)])`,
then `[ethers.utils.formatEther(balance), claimed]`. -/
def getBalanceAndClaimed (account : Address) (s : ERC20State) :
    String × Bool :=
  let bc := promiseAll2 (fun st => balanceOf st account)
    (fun st => hasClaimed st account) s
  (formatEther bc.1, bc.2)

/-- Transactions the staking form's submit handler can send. -/
inductive StakeTx where
  | approveTx : Address → Nat → StakeTx
  | stakeCall : Nat → StakeTx
deriving DecidableEq

/-- `handleStake` from the workshop document, as the sequence of
transactions it submits (each awaited to confirmation before the next):
read `allowance(owner, spender)`, and when `allowance.lt(amount)` submit
`approve(spender, amount)` and await `tx.wait()`; then submit
`stake(amount)`. -/
def handleStake (s : ERC20State) (owner spender : Address) (amount : Nat) :
    List StakeTx :=
  let allowance := s.allowances owner spender
  (if allowance < amount then [StakeTx.approveTx spender amount] else [])
    ++ [StakeTx.stakeCall amount]

/-- The injected wallet object (`window.ethereum`), opaque to this model. -/
structure EthereumObject where
  id : Nat
deriving DecidableEq

/-- `ethers.providers.Web3Provider`, wrapping the injected wallet object it
was constructed from. -/
structure Web3Provider where
  ethereum : EthereumObject
deriving DecidableEq

/-- `getWeb3Provider()` from `src/src/web3.js`: when `window.ethereum` is
present return `new ethers.providers.Web3Provider(window.ethereum)`,
otherwise return `null`. -/
def getWeb3Provider (windowEthereum : Option EthereumObject) :
    Option Web3Provider :=
  match windowEthereum with
  | some eth => some { ethereum := eth }
  | none => none

lemma formatEther_zero : formatEther 0 = "0.0" := by decide

lemma formatEther_one_ether : formatEther weiPerEther = "1.0" := by decide

lemma formatEther_one_and_a_half :
    formatEther 1500000000000000000 = "1.5" := by decide

lemma formatEther_one_wei :
    formatEther 1 = "0.000000000000000001" := by decide

/-! ### Helper lemmas about `claim` and `deploy` -/

lemma claim_error_of_claimed {s : ERC20State} {a : Address}
    (h : hasClaimed s a = true) :
    claim s a = Except.error EvmError.alreadyClaimed := by
  simp [claim, h]

lemma claim_ok_of_pending {s : ERC20State} {a : Address}
    (hp : hasClaimed s a = false) (ha : a ≠ 0)
    (hov : s.totalSupply + s.rewardAmount < Uint256Max) :
    claim s a = Except.ok (claimedState s a) := by
  simp [claim, mint, hp, ha, not_le.mpr hov, claimedState]

lemma claim_ok_elim {s : ERC20State} {a : Address} {s' : ERC20State}
    (h : claim s a = Except.ok s') :
    hasClaimed s a = false ∧ a ≠ 0 ∧
      s.totalSupply + s.rewardAmount < Uint256Max ∧ s' = claimedState s a := by
  by_cases hc : hasClaimed s a
  · simp [claim, hc] at h
  · by_cases ha : a = (0 : Address)
    · subst ha
      simp [claim, mint, hc] at h
    · by_cases hov : Uint256Max ≤ s.totalSupply + s.rewardAmount
      · simp [claim, mint, hc, ha, hov] at h
      · refine ⟨by simpa using hc, ha, not_le.mp hov, ?_⟩
        simp [claim, mint, hc, ha, hov, claimedState] at h
        exact h.symm

lemma hasClaimed_claimedState (s : ERC20State) (a x : Address) :
    hasClaimed (claimedState s a) x =
      if x = a then true else hasClaimed s x := by
  by_cases hx : x = a <;>
    simp [hasClaimed, claimedState, Function.update, hx, CLAIM_STATUS_CLAIMED]

lemma claimedState_claimants_self (s : ERC20State) (a : Address) :
    (claimedState s a).claimants a = CLAIM_STATUS_CLAIMED := by
  simp [claimedState, Function.update]

lemma claimedState_rewardAmount (s : ERC20State) (a : Address) :
    (claimedState s a).rewardAmount = s.rewardAmount := rfl

lemma claimedState_totalSupply (s : ERC20State) (a : Address) :
    (claimedState s a).totalSupply = s.totalSupply + s.rewardAmount := rfl

lemma claimedState_balances_self {s : ERC20State} {a : Address}
    (hInv : StorageInv s)
    (hov : s.totalSupply + s.rewardAmount < Uint256Max) :
    (claimedState s a).balances a = s.balances a + s.rewardAmount := by
  have hlt : s.balances a + s.rewardAmount < Uint256Max :=
    lt_of_le_of_lt (Nat.add_le_add_right (hInv.balances_le a) _) hov
  simp [claimedState, Function.update, Nat.mod_eq_of_lt hlt]

lemma deploy_ok {d : Address} (hd : d ≠ 0) :
    deploy d = Except.ok (deployed d) := by
  simp [deploy, deployed, mint, hd, emptyState, initialSupply, decimals,
    Uint256Max]

lemma deploy_ok_elim {d : Address} {s0 : ERC20State}
    (h : deploy d = Except.ok s0) : d ≠ 0 ∧ s0 = deployed d := by
  by_cases hd : d = (0 : Address)
  · simp [deploy, mint, hd] at h
  · refine ⟨hd, ?_⟩
    rw [deploy_ok hd] at h
    exact (Except.ok.injEq _ _ ▸ h).symm

lemma deployed_spec {d : Address} (hd : d ≠ 0) :
    (deployed d).rewardAmount = 1000 * 10 ^ decimals ∧
    (deployed d).totalSupply = initialSupply ∧
    (deployed d).balances d = initialSupply ∧
    (deployed d).claimants = fun _ => 0 := by
  have h2 : ¬ Uint256Max ≤ initialSupply := by
    norm_num [initialSupply, decimals, Uint256Max]
  have h3 : initialSupply % Uint256Max = initialSupply :=
    Nat.mod_eq_of_lt (not_le.mp h2)
  refine ⟨?_, ?_, ?_, ?_⟩ <;>
    simp [deployed, deploy, mint, hd, emptyState, h2, h3, Function.update]

lemma hasClaimed_deployed {d : Address} (hd : d ≠ 0) (x : Address) :
    hasClaimed (deployed d) x = false := by
  simp [hasClaimed, (deployed_spec hd).2.2.2, CLAIM_STATUS_CLAIMED]

lemma deployed_balances {d : Address} (hd : d ≠ 0) (a : Address) :
    (deployed d).balances a = if a = d then initialSupply else 0 := by
  have h2 : ¬ Uint256Max ≤ initialSupply := by
    norm_num [initialSupply, decimals, Uint256Max]
  have h3 : initialSupply % Uint256Max = initialSupply :=
    Nat.mod_eq_of_lt (not_le.mp h2)
  by_cases hax : a = d <;>
    simp [deployed, deploy, mint, hd, emptyState, h2, h3, Function.update, hax]

/-! ### The storage invariant holds in every reachable state -/

lemma claimedSet_deployed {d : Address} (hd : d ≠ 0) :
    claimedSet (deployed d) = ∅ := by
  ext a
  simp [claimedSet, hasClaimed_deployed hd]

lemma storageInv_deployed {d : Address} (hd : d ≠ 0) :
    StorageInv (deployed d) := by
  refine ⟨(deployed_spec hd).1, ?_, ?_⟩
  · rw [claimedSet_deployed hd]
    simp [(deployed_spec hd).2.1]
  · intro a
    rw [(deployed_spec hd).2.1, deployed_balances hd a]
    split <;> simp

lemma claimedSet_claimedState (s : ERC20State) (a : Address) :
    claimedSet (claimedState s a) = insert a (claimedSet s) := by
  ext x
  simp only [claimedSet, Finset.mem_filter, Finset.mem_univ, true_and,
    Finset.mem_insert, hasClaimed_claimedState]
  by_cases hx : x = a <;> simp [hx]

lemma card_claimedSet_claimedState {s : ERC20State} {a : Address}
    (hp : hasClaimed s a = false) :
    (claimedSet (claimedState s a)).card = (claimedSet s).card + 1 := by
  rw [claimedSet_claimedState s a, Finset.card_insert_of_not_mem]
  simp [claimedSet, hp]

lemma storageInv_no_overflow {s : ERC20State} (hInv : StorageInv s) :
    s.totalSupply + s.rewardAmount < Uint256Max := by
  have hcard : (claimedSet s).card ≤ NumAddr := by
    calc (claimedSet s).card ≤ Finset.univ.card := Finset.card_filter_le _ _
      _ = NumAddr := by rw [Finset.card_univ, Fintype.card_fin]
  rw [hInv.reward_eq, hInv.supply_eq]
  have hmul : (1000 * 10 ^ decimals) * (claimedSet s).card ≤
      (1000 * 10 ^ decimals) * NumAddr :=
    Nat.mul_le_mul_left _ hcard
  calc initialSupply + (1000 * 10 ^ decimals) * (claimedSet s).card
        + 1000 * 10 ^ decimals
      ≤ initialSupply + (1000 * 10 ^ decimals) * NumAddr
        + 1000 * 10 ^ decimals := by omega
    _ < Uint256Max := by norm_num [initialSupply, decimals, NumAddr, Uint256Max]

lemma storageInv_step {s : ERC20State} {a : Address} {s' : ERC20State}
    (hInv : StorageInv s) (h : claim s a = Except.ok s') : StorageInv s' := by
  obtain ⟨hp, ha, hov, rfl⟩ := claim_ok_elim h
  refine ⟨hInv.reward_eq, ?_, ?_⟩
  · rw [claimedState_totalSupply, card_claimedSet_claimedState hp,
      hInv.supply_eq, hInv.reward_eq]
    ring
  · intro x
    rw [claimedState_totalSupply]
    by_cases hx : x = a
    · subst hx
      rw [claimedState_balances_self hInv hov]
      exact Nat.add_le_add_right (hInv.balances_le x) _
    · have hbx : (claimedState s a).balances x = s.balances x := by
        simp [claimedState, Function.update, hx]
      rw [hbx]
      exact le_trans (hInv.balances_le x) (Nat.le_add_right _ _)

lemma storageInv_reaches {s0 : ERC20State} {tr : List Address}
    {s : ERC20State} (h : Reaches s0 tr s) (h0 : StorageInv s0) :
    StorageInv s := by
  induction h with
  | refl => exact h0
  | step sender h hc ih => exact storageInv_step ih hc

lemma hasClaimed_mono_step {s : ERC20State} {a : Address} {s' : ERC20State}
    (h : claim s a = Except.ok s') {x : Address}
    (hx : hasClaimed s x = true) : hasClaimed s' x = true := by
  obtain ⟨hp, ha, hov, rfl⟩ := claim_ok_elim h
  rw [hasClaimed_claimedState]
  split <;> simp [hx]

lemma hasClaimed_mono {s0 : ERC20State} {tr : List Address} {s : ERC20State}
    (h : Reaches s0 tr s) {x : Address} (hx : hasClaimed s0 x = true) :
    hasClaimed s x = true := by
  induction h with
  | refl => exact hx
  | step sender h hc ih => exact hasClaimed_mono_step hc ih

lemma reaches_trace_spec {s0 : ERC20State} {tr : List Address}
    {s : ERC20State} (h : Reaches s0 tr s)
    (h0 : ∀ x, hasClaimed s0 x = false) :
    (∀ a, (hasClaimed s a = true ↔ a ∈ tr)) ∧ tr.Nodup := by
  induction h with
  | refl =>
    refine ⟨fun a => ?_, List.nodup_nil⟩
    simp [h0 a]
  | @step trPrev sPrev sender _ h hc ih =>
    obtain ⟨hiff, hnd⟩ := ih
    obtain ⟨hp, ha, hov, rfl⟩ := claim_ok_elim hc
    have hmem : sender ∉ trPrev := fun hm => by
      have h1 := (hiff sender).mpr hm
      rw [hp] at h1
      exact Bool.noConfusion h1
    constructor
    · intro a
      rw [hasClaimed_claimedState]
      by_cases hxa : a = sender
      · simp [hxa]
      · simp [hxa, hiff a]
    · simp [List.nodup_append, hnd, hmem]

lemma reachable_elim {d : Address} {tr : List Address} {s : ERC20State}
    (h : Reachable d tr s) :
    d ≠ 0 ∧ Reaches (deployed d) tr s ∧ StorageInv s ∧
      (∀ a, (hasClaimed s a = true ↔ a ∈ tr)) ∧ tr.Nodup := by
  obtain ⟨s0, hdep, hr⟩ := h
  obtain ⟨hd, rfl⟩ := deploy_ok_elim hdep
  exact ⟨hd, hr, storageInv_reaches hr (storageInv_deployed hd),
    (reaches_trace_spec hr (hasClaimed_deployed hd)).1,
    (reaches_trace_spec hr (hasClaimed_deployed hd)).2⟩

/-! ### Claims -/

/-- C1: for every account, `claim(account)` fails with AlreadyClaimed when
the account's claim status is already CLAIMED; when the status is PENDING,
it succeeds, mints the fixed reward amount to that account, and sets the
account's status to CLAIMED. -/
theorem claim_pending_succeeds_claimed_fails (d : Address)
    (tr : List Address) (s : ERC20State) (a : Address)
    (hreach : Reachable d tr s) (ha : a ≠ 0) :
    (hasClaimed s a = true →
      claim s a = Except.error EvmError.alreadyClaimed) ∧
    (hasClaimed s a = false →
      claim s a = Except.ok (claimedState s a) ∧
      (claimedState s a).balances a = s.balances a + s.rewardAmount ∧
      (claimedState s a).totalSupply = s.totalSupply + s.rewardAmount ∧
      (claimedState s a).claimants a = CLAIM_STATUS_CLAIMED ∧
      s.rewardAmount = 1000 * 10 ^ decimals) := by
  obtain ⟨hd, hr, hInv, hiff, hnd⟩ := reachable_elim hreach
  refine ⟨fun hc => claim_error_of_claimed hc, fun hp => ?_⟩
  have hov := storageInv_no_overflow hInv
  exact ⟨claim_ok_of_pending hp ha hov,
    claimedState_balances_self hInv hov,
    claimedState_totalSupply s a,
    claimedState_claimants_self s a,
    hInv.reward_eq⟩

theorem claim_pending_succeeds_claimed_fails_witness :
    hasClaimed (deployed 1) 2 = false ∧
    claim (deployed 1) 2 = Except.ok (claimedState (deployed 1) 2) ∧
    (claimedState (deployed 1) 2).claimants 2 = CLAIM_STATUS_CLAIMED := by
  have h := claim_pending_succeeds_claimed_fails 1 [] (deployed 1) 2
    ⟨deployed 1, rfl, Reaches.refl _⟩ (by decide)
  exact ⟨by decide, (h.2 (by decide)).1, (h.2 (by decide)).2.2.2.1⟩

/-- C2: for every account starting in the PENDING state, calling claim
twice in sequence succeeds on the first call and fails on the second call
with AlreadyClaimed. -/
theorem claim_twice_first_succeeds_second_fails (d : Address)
    (tr : List Address) (s : ERC20State) (a : Address)
    (hreach : Reachable d tr s) (ha : a ≠ 0)
    (hp : hasClaimed s a = false) :
    ∃ s', claim s a = Except.ok s' ∧
      claim s' a = Except.error EvmError.alreadyClaimed := by
  obtain ⟨hd, hr, hInv, _, _⟩ := reachable_elim hreach
  have hov := storageInv_no_overflow hInv
  refine ⟨claimedState s a, claim_ok_of_pending hp ha hov, ?_⟩
  apply claim_error_of_claimed
  rw [hasClaimed_claimedState]
  simp

theorem claim_twice_first_succeeds_second_fails_witness :
    ∃ s', claim (deployed 1) 2 = Except.ok s' ∧
      claim s' 2 = Except.error EvmError.alreadyClaimed :=
  claim_twice_first_succeeds_second_fails 1 [] (deployed 1) 2
    ⟨deployed 1, rfl, Reaches.refl _⟩ (by decide) (by decide)

/-- C3: for every account and every reachable contract state, the claim
status transitions PENDING→CLAIMED at most once (the account's address
occurs at most once among the successful claims of the reachable trace)
and never reverts: no further sequence of operations changes a CLAIMED
status back to PENDING. -/
theorem claim_status_monotone_once (d : Address) (tr : List Address)
    (s : ERC20State) (a : Address) (hreach : Reachable d tr s) :
    (∀ tr' s', Reaches s tr' s' →
      hasClaimed s a = true → hasClaimed s' a = true) ∧
    tr.count a ≤ 1 := by
  obtain ⟨hd, hr, hInv, hiff, hnd⟩ := reachable_elim hreach
  exact ⟨fun tr' s' h hx => hasClaimed_mono h hx,
    List.nodup_iff_count_le_one.mp hnd a⟩

theorem claim_status_monotone_once_witness :
    hasClaimed (claimedState (deployed 1) 2) 2 = true ∧
    ([(2 : Address)].count (2 : Address) ≤ 1) := by
  have h := claim_status_monotone_once 1 [2] (claimedState (deployed 1) 2) 2
    ⟨deployed 1, rfl, Reaches.step 2 (Reaches.refl _) rfl⟩
  exact ⟨h.1 [] _ (Reaches.refl _) (by decide), h.2⟩

/-- C4: the status transition and the reward mint of claim are atomic: a
reverted claim transaction leaves the chain state unchanged, and a
successful one applies the mint (balance and total supply) and the status
change together. -/
theorem claim_atomic (s : ERC20State) (a : Address) :
    (∀ e, claim s a = Except.error e → applyClaimTx s a = s) ∧
    (∀ s', claim s a = Except.ok s' →
      applyClaimTx s a = s' ∧
      s'.claimants a = CLAIM_STATUS_CLAIMED ∧
      s'.totalSupply = s.totalSupply + s.rewardAmount ∧
      s'.balances a = (s.balances a + s.rewardAmount) % Uint256Max) := by
  constructor
  · intro e he
    simp [applyClaimTx, he]
  · intro s' hs
    obtain ⟨hp, ha, hov, rfl⟩ := claim_ok_elim hs
    refine ⟨by simp [applyClaimTx, hs], claimedState_claimants_self s a,
      claimedState_totalSupply s a, ?_⟩
    simp [claimedState, Function.update]

theorem claim_atomic_witness :
    applyClaimTx (claimedState (deployed 1) 2) 2 =
      claimedState (deployed 1) 2 ∧
    applyClaimTx (deployed 1) 2 = claimedState (deployed 1) 2 :=
  ⟨(claim_atomic (claimedState (deployed 1) 2) 2).1
      EvmError.alreadyClaimed rfl,
    ((claim_atomic (deployed 1) 2).2 (claimedState (deployed 1) 2) rfl).1⟩

/-- C5: `handleStake` fetches the current allowance of the owner/spender
pair and compares it with the requested amount; exactly when the allowance
is insufficient, exactly one approval transaction for the exact requested
amount is submitted (and confirmed) before the stake transaction. -/
theorem handleStake_approval_iff_insufficient (s : ERC20State)
    (owner spender : Address) (amount : Nat) :
    (s.allowances owner spender < amount →
      handleStake s owner spender amount =
        [StakeTx.approveTx spender amount, StakeTx.stakeCall amount]) ∧
    (amount ≤ s.allowances owner spender →
      handleStake s owner spender amount = [StakeTx.stakeCall amount]) ∧
    ((handleStake s owner spender amount).countP
        (fun t => decide (t = StakeTx.approveTx spender amount)) =
      if s.allowances owner spender < amount then 1 else 0) := by
  refine ⟨fun h => by simp [handleStake, h],
    fun h => by simp [handleStake, not_lt.mpr h], ?_⟩
  by_cases h : s.allowances owner spender < amount <;>
    simp [handleStake, h, List.countP, List.countP.go]

theorem handleStake_approval_iff_insufficient_witness :
    handleStake (deployed 1) 1 3 5 =
      [StakeTx.approveTx 3 5, StakeTx.stakeCall 5] ∧
    handleStake (deployed 1) 1 3 0 = [StakeTx.stakeCall 0] :=
  ⟨(handleStake_approval_iff_insufficient (deployed 1) 1 3 5).1 (by decide),
    (handleStake_approval_iff_insufficient (deployed 1) 1 3 0).2.1
      (by decide)⟩

/-- C6: for every account, `hasClaimed(account)` returns false in any
reachable state in which that account has not successfully claimed, and
true in any state after a successful claim by that account: it is true
exactly when the account occurs among the successful claims of the trace. -/
theorem hasClaimed_iff_in_trace (d : Address) (tr : List Address)
    (s : ERC20State) (a : Address) (hreach : Reachable d tr s) :
    hasClaimed s a = true ↔ a ∈ tr := by
  obtain ⟨_, _, _, hiff, _⟩ := reachable_elim hreach
  exact hiff a

theorem hasClaimed_iff_in_trace_witness :
    (hasClaimed (claimedState (deployed 1) 2) 2 = true ↔
      (2 : Address) ∈ [(2 : Address)]) ∧
    (hasClaimed (claimedState (deployed 1) 2) 3 = true ↔
      (3 : Address) ∈ [(2 : Address)]) :=
  ⟨hasClaimed_iff_in_trace 1 [2] (claimedState (deployed 1) 2) 2
      ⟨deployed 1, rfl, Reaches.step 2 (Reaches.refl _) rfl⟩,
    hasClaimed_iff_in_trace 1 [2] (claimedState (deployed 1) 2) 3
      ⟨deployed 1, rfl, Reaches.step 2 (Reaches.refl _) rfl⟩⟩

/-- C7: `getBalanceAndClaimed` serves both reads from the same chain
state and returns the pair in the order (balance, claimed), the balance
converted from base units to an ether-formatted string. -/
theorem getBalanceAndClaimed_tuple (s : ERC20State) (account : Address) :
    getBalanceAndClaimed account s =
      (formatEther (balanceOf s account), hasClaimed s account) ∧
    ((getBalanceAndClaimed account s).2 = true ↔
      s.claimants account = CLAIM_STATUS_CLAIMED) := by
  refine ⟨rfl, ?_⟩
  simp [getBalanceAndClaimed, promiseAll2, hasClaimed]

/-- C8: `hasClaimed(account)` is a pure read: as an external call it
returns the account's current claim status and leaves the entire contract
state (claim statuses, balances, total supply) unchanged. -/
theorem hasClaimed_pure_read (s : ERC20State) (sender a : Address) :
    ataCall s sender (Msg.hasClaimedMsg a) =
      Except.ok (Ret.boolRet (hasClaimed s a), s) ∧
    (∀ r s', ataCall s sender (Msg.hasClaimedMsg a) = Except.ok (r, s') →
      s'.claimants = s.claimants ∧ s'.balances = s.balances ∧
      s'.totalSupply = s.totalSupply) ∧
    hasClaimed s a = decide (s.claimants a = CLAIM_STATUS_CLAIMED) := by
  refine ⟨rfl, ?_, rfl⟩
  intro r s' h
  simp only [ataCall, Except.ok.injEq, Prod.mk.injEq] at h
  obtain ⟨h1, h2⟩ := h
  subst h2
  exact ⟨rfl, rfl, rfl⟩

theorem hasClaimed_pure_read_witness :
    (deployed 1).claimants = (deployed 1).claimants ∧
    (deployed 1).balances = (deployed 1).balances :=
  ⟨((hasClaimed_pure_read (deployed 1) 1 2).2.1 (Ret.boolRet false)
      (deployed 1) rfl).1,
    ((hasClaimed_pure_read (deployed 1) 1 2).2.1 (Ret.boolRet false)
      (deployed 1) rfl).2.1⟩

/-- C9: the reward amount is fixed at construction to
`1000 * 10 ^ decimals` base units and is never changed by any operation;
every successful claim increases the claiming account's balance and the
total supply by exactly this amount, and the deployer receives an initial
mint of `1000000 * 10 ^ decimals` base units at construction. -/
theorem rewardAmount_fixed_and_mint_amounts (d : Address)
    (tr : List Address) (s : ERC20State) (hreach : Reachable d tr s) :
    s.rewardAmount = 1000 * 10 ^ decimals ∧
    (∀ s0, deploy d = Except.ok s0 →
      s0.rewardAmount = 1000 * 10 ^ decimals ∧
      s0.balances d = 1000000 * 10 ^ decimals ∧
      s0.totalSupply = 1000000 * 10 ^ decimals) ∧
    (∀ a s', claim s a = Except.ok s' →
      s'.rewardAmount = s.rewardAmount ∧
      s'.balances a = s.balances a + s.rewardAmount ∧
      s'.totalSupply = s.totalSupply + s.rewardAmount) := by
  obtain ⟨hd, hr, hInv, _, _⟩ := reachable_elim hreach
  refine ⟨hInv.reward_eq, ?_, ?_⟩
  · intro s0 hdep
    obtain ⟨_, rfl⟩ := deploy_ok_elim hdep
    exact ⟨(deployed_spec hd).1, (deployed_spec hd).2.2.1,
      (deployed_spec hd).2.1⟩
  · intro a s' hs
    obtain ⟨hp, ha, hov, rfl⟩ := claim_ok_elim hs
    exact ⟨rfl, claimedState_balances_self hInv hov,
      claimedState_totalSupply s a⟩

theorem rewardAmount_fixed_and_mint_amounts_witness :
    (deployed 1).rewardAmount = 1000 * 10 ^ decimals ∧
    (deployed 1).balances 1 = 1000000 * 10 ^ decimals := by
  have h := rewardAmount_fixed_and_mint_amounts 1 [] (deployed 1)
    ⟨deployed 1, rfl, Reaches.refl _⟩
  exact ⟨h.1, (h.2.1 (deployed 1) rfl).2.1⟩

/-- C10: `getWeb3Provider` returns null (rather than throwing) when no
injected wallet object is present, and otherwise a provider connected to
the injected wallet: its result is null exactly when `window.ethereum` is
absent. -/
theorem getWeb3Provider_null_or_provider
    (windowEthereum : Option EthereumObject) :
    (windowEthereum = none → getWeb3Provider windowEthereum = none) ∧
    (∀ eth, windowEthereum = some eth →
      getWeb3Provider windowEthereum = some { ethereum := eth }) ∧
    (getWeb3Provider windowEthereum = none ↔ windowEthereum = none) := by
  refine ⟨?_, ?_, ?_⟩
  · intro h
    subst h
    rfl
  · intro eth h
    subst h
    rfl
  · cases windowEthereum <;> simp [getWeb3Provider]

theorem getWeb3Provider_null_or_provider_witness :
    getWeb3Provider none = none ∧
    getWeb3Provider (some { id := 7 }) = some { ethereum := { id := 7 } } :=
  ⟨(getWeb3Provider_null_or_provider none).1 rfl,
    (getWeb3Provider_null_or_provider (some { id := 7 })).2.1
      { id := 7 } rfl⟩
